import Mathlib

/-
Verification of the contact-book core of `bot_helper.py`: field validators
(`Phone`, `Birthday`), the `Record` operations, the `AddressBook` directory,
and the upcoming-birthday query with its weekend-shift policy.

Python exceptions are modelled with `Except`; machine dates (`datetime.date`)
are modelled as proleptic-Gregorian year/month/day triples with the same
ordinal arithmetic that `date.toordinal` / `timedelta` use.
-/

namespace BotHelper

/-- A calendar date, mirroring `datetime.date` (proleptic Gregorian). -/
structure Date where
  year : Nat
  month : Nat
  day : Nat
deriving DecidableEq

/-- Gregorian leap-year test, as in `calendar.isleap` / `datetime`. -/
def isLeap (y : Nat) : Bool :=
  (y % 4 == 0 && y % 100 != 0) || y % 400 == 0

/-- Number of days of month `m` (1..12) in year `y`; 0 for out-of-range months. -/
def daysInMonth (y m : Nat) : Nat :=
  match m with
  | 1 => 31
  | 2 => if isLeap y then 29 else 28
  | 3 => 31
  | 4 => 30
  | 5 => 31
  | 6 => 30
  | 7 => 31
  | 8 => 31
  | 9 => 30
  | 10 => 31
  | 11 => 30
  | 12 => 31
  | _ => 0

/-- Days in year `y` that precede month `m` (CPython's `_days_before_month`:
a non-leap cumulative table plus a leap-day adjustment for months after
February). -/
def daysBeforeMonth (y m : Nat) : Nat :=
  (match m with
    | 1 => 0 | 2 => 31 | 3 => 59 | 4 => 90 | 5 => 120 | 6 => 151
    | 7 => 181 | 8 => 212 | 9 => 243 | 10 => 273 | 11 => 304 | 12 => 334
    | _ => 0)
  + if 3 ≤ m ∧ m ≤ 12 ∧ isLeap y then 1 else 0

/-- Validity of a `Date`, exactly the range checks `datetime.date.__new__` performs
(`datetime.MINYEAR = 1`; the upper year bound 9999 is tracked separately where needed). -/
def ValidDate (d : Date) : Prop :=
  1 ≤ d.year ∧ 1 ≤ d.month ∧ d.month ≤ 12 ∧ 1 ≤ d.day ∧ d.day ≤ daysInMonth d.year d.month

instance (d : Date) : Decidable (ValidDate d) :=
  inferInstanceAs (Decidable (_ ∧ _ ∧ _ ∧ _ ∧ _))

/-- The proleptic-Gregorian ordinal of a date, as `date.toordinal()`
(`0001-01-01` has ordinal 1). -/
def toOrdinal (d : Date) : Nat :=
  365 * (d.year - 1) + (d.year - 1) / 4 - (d.year - 1) / 100 + (d.year - 1) / 400
    + daysBeforeMonth d.year d.month + d.day

/-- The weekday of a date, as `date.weekday()`: Monday = 0 .. Sunday = 6. -/
def Date.weekday (d : Date) : Nat := (toOrdinal d + 6) % 7

/-- The day after `d` (the successor a `timedelta(days=1)` step produces on a
valid date). -/
def nextDay (d : Date) : Date :=
  if d.day < daysInMonth d.year d.month then ⟨d.year, d.month, d.day + 1⟩
  else if d.month < 12 then ⟨d.year, d.month + 1, 1⟩
  else ⟨d.year + 1, 1, 1⟩

/-- Date plus a non-negative number of days: `d + timedelta(days=n)`. -/
def addDays (d : Date) : Nat → Date
  | 0 => d
  | n + 1 => nextDay (addDays d n)

/-- Python's `date.__lt__`: lexicographic comparison of (year, month, day). -/
def dateLt (a b : Date) : Bool :=
  a.year < b.year ||
    (a.year == b.year && (a.month < b.month || (a.month == b.month && a.day < b.day)))

/-- Python's `(a - b).days` for dates: the difference of ordinals. -/
def dateSub (a b : Date) : Int :=
  (toOrdinal a : Int) - (toOrdinal b : Int)

/-- The decimal digit character for `n` (0..9). -/
def digitChar (n : Nat) : Char :=
  match n with
  | 0 => '0' | 1 => '1' | 2 => '2' | 3 => '3' | 4 => '4'
  | 5 => '5' | 6 => '6' | 7 => '7' | 8 => '8' | _ => '9'

/-- Two-digit zero-padded rendering, as strftime's `%d` / `%m`. -/
def pad2 (n : Nat) : List Char :=
  [digitChar (n / 10 % 10), digitChar (n % 10)]

/-- Four-digit zero-padded rendering of the year, strftime's `%Y`
(documented rendering: `0001`, ..., `2013`). -/
def pad4 (n : Nat) : List Char :=
  [digitChar (n / 1000 % 10), digitChar (n / 100 % 10), digitChar (n / 10 % 10),
    digitChar (n % 10)]

/-- Source `date_to_string`: `date.strftime("%d.%m.%Y")`. -/
def date_to_string (d : Date) : String :=
  String.mk (pad2 d.day ++ '.' :: pad2 d.month ++ '.' :: pad4 d.year)

/-- Numeric value of a digit character. -/
def digitVal (c : Char) : Nat := c.toNat - 48

/-- Python exceptions raised by the core (`WrongFormatOfField` subclasses
`Exception`; the others are builtins). -/
inductive PyErr where
  | valueError (msg : String)
  | wrongFormatOfField (msg : String)
  | keyError (msg : String)
  | attributeError (msg : String)
deriving DecidableEq

/-- Source `string_to_date`: `datetime.strptime(s, "%d.%m.%Y").date()`, on the
exactly-`DD.MM.YYYY`-shaped strings the program hands it (every call site passes
a match of the regex `\d{2}\.\d{2}\.\d{4}`); raises `ValueError` when the shape
or the calendar ranges fail, as strptime does. -/
def string_to_date (s : String) : Except PyErr Date :=
  match s.data with
  | [d1, d2, p1, m1, m2, p2, y1, y2, y3, y4] =>
    if (p1 = '.' ∧ p2 = '.') ∧ (d1.isDigit && d2.isDigit && m1.isDigit && m2.isDigit &&
        y1.isDigit && y2.isDigit && y3.isDigit && y4.isDigit) then
      if ValidDate ⟨1000 * digitVal y1 + 100 * digitVal y2 + 10 * digitVal y3 + digitVal y4,
          10 * digitVal m1 + digitVal m2, 10 * digitVal d1 + digitVal d2⟩ then
        .ok ⟨1000 * digitVal y1 + 100 * digitVal y2 + 10 * digitVal y3 + digitVal y4,
          10 * digitVal m1 + digitVal m2, 10 * digitVal d1 + digitVal d2⟩
      else .error (.valueError "day is out of range for month")
    else .error (.valueError "time data does not match format")
  | _ => .error (.valueError "time data does not match format")

/-- One attempt of the regex `\d{2}\.\d{2}\.\d{4}` at the current position:
succeeds iff the next ten characters have the `DD.MM.YYYY` shape, returning them. -/
def matchDateAt (cs : List Char) : Option (List Char) :=
  match cs with
  | d1 :: d2 :: p1 :: m1 :: m2 :: p2 :: y1 :: y2 :: y3 :: y4 :: _ =>
    if (p1 = '.' ∧ p2 = '.') ∧ (d1.isDigit && d2.isDigit && m1.isDigit && m2.isDigit &&
        y1.isDigit && y2.isDigit && y3.isDigit && y4.isDigit) then
      some [d1, d2, p1, m1, m2, p2, y1, y2, y3, y4]
    else none
  | _ => none

/-- Re-implementation of `re.search(r"\d{2}\.\d{2}\.\d{4}", s)`: first match,
scanning positions left to right. -/
def searchDate : List Char → Option (List Char)
  | [] => none
  | c :: rest =>
    match matchDateAt (c :: rest) with
    | some m => some m
    | none => searchDate rest

/-- Source `Phone.__init__`: accepts `value` iff `len(value) == 10 and
value.isdecimal()` (the decimal-digit test), storing the value unchanged
(`str(Phone(v)) == v`); otherwise raises `WrongFormatOfField`. -/
def Phone.mk' (value : String) : Except PyErr String :=
  if value.length = 10 ∧ value.data.all Char.isDigit then .ok value
  else .error (.wrongFormatOfField "The phone number should contain 10 numeric characters")

/-- Source `Birthday.__init__`: the literal marker `"None"` yields the absent
value; otherwise `re.search` looks for `DD.MM.YYYY` anywhere in the text and the
match is parsed by `string_to_date`; any `ValueError` is re-raised with the fixed
message. The stored `value` is `Option Date` (`none` = Python `None`). -/
def Birthday.mk' (value : String) : Except PyErr (Option Date) :=
  if value ≠ "None" then
    match searchDate value.data with
    | some m =>
      match string_to_date (String.mk m) with
      | .ok d => .ok (some d)
      | .error _ => .error (.valueError "Invalid date format. Use DD.MM.YYYY")
    | none => .error (.valueError "Invalid date format. Use DD.MM.YYYY")
  else .ok none

/-- A contact record: `name` holds the raw string stored in the `Name` field
(never validated by the source), `phones` the validated phone values, and
`birthday` distinguishes the attribute being Python `None` (outer `none`,
record built without a birthday) from a `Birthday` whose `value` is `None`
(inner `none`, built from the `"None"` marker). -/
structure Record where
  name : String
  phones : List String
  birthday : Option (Option Date)
deriving DecidableEq

/-- The phone list comprehension `[Phone(phone) for phone in phones]`:
validates in listed order, propagating the first failure. -/
def validatePhones : List String → Except PyErr (List String)
  | [] => .ok []
  | p :: ps =>
    match Phone.mk' p with
    | .error e => .error e
    | .ok v =>
      match validatePhones ps with
      | .error e => .error e
      | .ok vs => .ok (v :: vs)

/-- Source `Record.__init__(name, phones=None, birthday=None)`. The guards
`if phones` and `if birthday` are Python truthiness tests, so an empty phone
list and an empty birthday string take the falsy branch. -/
def Record.mk' (name : String) (phones : Option (List String))
    (birthday : Option String) : Except PyErr Record :=
  let phonesRes : Except PyErr (List String) :=
    match phones with
    | none => .ok []
    | some l => if l = [] then .ok [] else validatePhones l
  match phonesRes with
  | .error e => .error e
  | .ok ps =>
    match birthday with
    | none => .ok ⟨name, ps, none⟩
    | some s =>
      if s = "" then .ok ⟨name, ps, none⟩
      else
        match Birthday.mk' s with
        | .error e => .error e
        | .ok b => .ok ⟨name, ps, some b⟩

/-- Source `Record.find_phone`: first phone equal to `Phone(number)`, else the
`None` sentinel. `Phone(number)` is built inside the generator's condition, so
it is only constructed (and can only raise) when the phone list is non-empty. -/
def find_phone (phones : List String) (number : String) : Except PyErr (Option String) :=
  match phones with
  | [] => .ok none
  | _ :: _ =>
    match Phone.mk' number with
    | .error e => .error e
    | .ok p => .ok (phones.find? (fun q => q == p))

/-- Source `Record.add_phone`: validate, then append. A raised error carries the
phone list as it stands at raise time (unchanged, since validation precedes the
append). -/
def add_phone (phones : List String) (phone : String) :
    Except (PyErr × List String) (List String) :=
  match Phone.mk' phone with
  | .error e => .error (e, phones)
  | .ok p => .ok (phones ++ [p])

/-- Source `Record.remove_phone`, as invoked from `edit_phone` with an
already-validated phone value: removes the first equal entry, else raises. -/
def remove_phone (phones : List String) (phone : String) :
    Except (PyErr × List String) (List String) :=
  if phones.contains phone then .ok (phones.erase phone)
  else .error (.valueError ("Phone number " ++ phone ++ " not found"), phones)

/-- Source `Record.edit_phone`: look up the old number, raise if the sentinel
came back (the f-string interpolates the sentinel, hence "None" in the message),
then `add_phone(new)` followed by `remove_phone` of the found entry. -/
def edit_phone (phones : List String) (old_number new_number : String) :
    Except (PyErr × List String) (List String) :=
  match find_phone phones old_number with
  | .error e => .error (e, phones)
  | .ok none => .error (.valueError "Phone number None not found", phones)
  | .ok (some phone) =>
    match add_phone phones new_number with
    | .error ep => .error ep
    | .ok ps => remove_phone ps phone

/-- One emitted row of `get_upcoming_birthdays`: the Python dict
`{"name": ..., "birthday": ...}`. -/
structure Entry where
  name : String
  birthday : String
deriving DecidableEq

/-- The address book's `self.data` dict: an insertion-ordered association list
from key (the textual name) to record, as Python dicts iterate. -/
abbrev AddressBook := List (String × Record)

/-- The key view `self.data.keys()`. -/
def keys (b : AddressBook) : List String := b.map Prod.fst

/-- Source `AddressBook.add_record`: insert under `str(record.name)` unless the
key is present, else raise. A new dict key is appended in iteration order. -/
def add_record (b : AddressBook) (r : Record) : Except PyErr AddressBook :=
  if (keys b).contains r.name then
    .error (.valueError "Record with this name already exists")
  else .ok (b ++ [(r.name, r)])

/-- Source `AddressBook.update_record`: overwrite the value stored under the
record's name (dict assignment keeps the key's position), else raise. -/
def update_record (b : AddressBook) (r : Record) : Except PyErr AddressBook :=
  if (keys b).contains r.name then
    .ok (b.map (fun kv => if kv.1 = r.name then (kv.1, r) else kv))
  else .error (.valueError ("Record " ++ r.name ++ " not found"))

/-- Source `AddressBook.find`: the stored record, else raise `ValueError`. -/
def find (b : AddressBook) (name : String) : Except PyErr Record :=
  match b.find? (fun kv => kv.1 == name) with
  | some kv => .ok kv.2
  | none => .error (.valueError ("Record " ++ name ++ " not found"))

/-- Source `AddressBook.check_record`: membership of the key. -/
def check_record (b : AddressBook) (record : String) : Bool :=
  (keys b).contains record

/-- Source `AddressBook.delete`: remove the entry, else raise `KeyError`. -/
def delete (b : AddressBook) (name : String) : Except PyErr AddressBook :=
  if (keys b).contains name then .ok (b.eraseP (fun kv => kv.1 == name))
  else .error (.keyError ("Record " ++ name ++ " not found"))

/-- Source `find_next_weekday`: days ahead to the wanted weekday, pushed into
1..7 when non-positive, then date addition. -/
def find_next_weekday (start_date : Date) (weekday : Nat) : Date :=
  let days_ahead : Int := (weekday : Int) - (start_date.weekday : Int)
  let days_ahead := if days_ahead ≤ 0 then days_ahead + 7 else days_ahead
  addDays start_date days_ahead.toNat

/-- Source `adjust_for_weekend`: Saturday/Sunday dates move to the next Monday. -/
def adjust_for_weekend (birthday : Date) : Date :=
  if birthday.weekday ≥ 5 then find_next_weekday birthday 0 else birthday

/-- Source `date.replace(year=y)`: same month and day in year `y`; `ValueError`
when the day does not exist there (29 February in a non-leap year). -/
def replaceYear (d : Date) (y : Nat) : Except PyErr Date :=
  if d.day ≤ daysInMonth y d.month then .ok ⟨y, d.month, d.day⟩
  else .error (.valueError "day is out of range for month")

/-- The occurrence selection of `get_upcoming_birthdays`: this year's
occurrence, replaced by next year's when strictly before today. -/
def occurrenceDate (bd today : Date) : Except PyErr Date :=
  match replaceYear bd today.year with
  | .error e => .error e
  | .ok t => if dateLt t today then replaceYear bd (today.year + 1) else .ok t

/-- The loop body of `get_upcoming_birthdays` for one `(key, record)` item.
Reading `record.birthday.value` on a record whose birthday attribute is Python
`None` raises `AttributeError`; a `Birthday` whose value is `None` is falsy and
skipped; otherwise the occurrence is computed, filtered by
`0 <= (occurrence - today).days <= days`, and emitted weekend-shifted. -/
def processRecord (today : Date) (days : Int) (key : String) (record : Record) :
    Except PyErr (Option Entry) :=
  match record.birthday with
  | none => .error (.attributeError "'NoneType' object has no attribute 'value'")
  | some none => .ok none
  | some (some bd) =>
    match occurrenceDate bd today with
    | .error e => .error e
    | .ok occ =>
      if 0 ≤ dateSub occ today ∧ dateSub occ today ≤ days then
        .ok (some ⟨key, date_to_string (adjust_for_weekend occ)⟩)
      else .ok none

/-- Source `AddressBook.get_upcoming_birthdays(days=7)`, with `date.today()`
passed in as the `today` parameter: iterate `self.data.items()` in order,
collecting the emitted rows; the first raising record aborts the whole query. -/
def get_upcoming_birthdays (b : AddressBook) (days : Int) (today : Date) :
    Except PyErr (List Entry) :=
  match b with
  | [] => .ok []
  | (k, r) :: rest =>
    match processRecord today days k r with
    | .error e => .error e
    | .ok none => get_upcoming_birthdays rest days today
    | .ok (some entry) =>
      match get_upcoming_birthdays rest days today with
      | .error e => .error e
      | .ok others => .ok (entry :: others)

/-- Address books reachable from the empty book by successful `add_record`,
`update_record` and `delete` calls (a raising call leaves the book unchanged,
so only successes change the state). -/
inductive Reachable : AddressBook → Prop where
  | empty : Reachable []
  | add {b b' : AddressBook} {r : Record} :
      Reachable b → add_record b r = .ok b' → Reachable b'
  | update {b b' : AddressBook} {r : Record} :
      Reachable b → update_record b r = .ok b' → Reachable b'
  | del {b b' : AddressBook} {n : String} :
      Reachable b → delete b n = .ok b' → Reachable b'

instance {ε α : Type} [DecidableEq ε] [DecidableEq α] : DecidableEq (Except ε α)
  | .ok x, .ok y =>
    if h : x = y then isTrue (by rw [h]) else isFalse (fun hh => h (Except.ok.inj hh))
  | .ok _, .error _ => isFalse (fun hh => Except.noConfusion hh)
  | .error _, .ok _ => isFalse (fun hh => Except.noConfusion hh)
  | .error e, .error f =>
    if h : e = f then isTrue (by rw [h]) else isFalse (fun hh => h (Except.error.inj hh))

theorem isLeap_iff (y : Nat) :
    isLeap y = true ↔ ((y % 4 = 0 ∧ ¬ y % 100 = 0) ∨ y % 400 = 0) := by
  simp [isLeap]

theorem daysInMonth_pos (y m : Nat) (h1 : 1 ≤ m) (h2 : m ≤ 12) :
    1 ≤ daysInMonth y m := by
  interval_cases m <;> simp [daysInMonth] <;> split <;> omega

theorem daysBeforeMonth_succ (y m : Nat) (h1 : 1 ≤ m) (h2 : m ≤ 11) :
    daysBeforeMonth y (m + 1) = daysBeforeMonth y m + daysInMonth y m := by
  interval_cases m <;>
    · unfold daysBeforeMonth daysInMonth
      cases hL : isLeap y <;> norm_num

theorem daysBeforeMonth_one (y : Nat) : daysBeforeMonth y 1 = 0 := by
  unfold daysBeforeMonth; norm_num

theorem daysBeforeMonth_twelve (y : Nat) :
    daysBeforeMonth y 12 = 334 + (if isLeap y then 1 else 0) := by
  unfold daysBeforeMonth; norm_num

set_option maxHeartbeats 1000000 in
theorem toOrdinal_nextDay (d : Date) (h : ValidDate d) :
    toOrdinal (nextDay d) = toOrdinal d + 1 := by
  obtain ⟨hy, hm1, hm2, hd1, hd2⟩ := h
  unfold nextDay
  split
  · simp only [toOrdinal]
    omega
  · split
    · rename_i hlt hm
      have hday : d.day = daysInMonth d.year d.month := by omega
      simp only [toOrdinal]
      rw [daysBeforeMonth_succ d.year d.month hm1 (by omega)]
      omega
    · rename_i hlt hm
      have hm12 : d.month = 12 := by omega
      have hday : d.day = 31 := by
        have h31 : daysInMonth d.year d.month = 31 := by rw [hm12]; rfl
        omega
      simp only [toOrdinal, hm12, hday, daysBeforeMonth_one, daysBeforeMonth_twelve]
      cases hb : isLeap d.year
      · have hP : ¬ ((d.year % 4 = 0 ∧ ¬ d.year % 100 = 0) ∨ d.year % 400 = 0) := by
          intro hp
          rw [(isLeap_iff d.year).mpr hp] at hb
          cases hb
        rw [show (if false = true then (1:Nat) else 0) = 0 from rfl]
        simp only [Nat.add_sub_cancel]
        omega
      · have hP : (d.year % 4 = 0 ∧ ¬ d.year % 100 = 0) ∨ d.year % 400 = 0 :=
          (isLeap_iff d.year).mp hb
        rw [show (if true = true then (1:Nat) else 0) = 1 from rfl]
        simp only [Nat.add_sub_cancel]
        omega

theorem validDate_mk (y m dd : Nat) :
    ValidDate ⟨y, m, dd⟩ ↔ (1 ≤ y ∧ 1 ≤ m ∧ m ≤ 12 ∧ 1 ≤ dd ∧ dd ≤ daysInMonth y m) :=
  Iff.rfl

theorem nextDay_valid (d : Date) (h : ValidDate d) : ValidDate (nextDay d) := by
  obtain ⟨hy, hm1, hm2, hd1, hd2⟩ := h
  unfold nextDay
  split
  · rename_i hlt
    rw [validDate_mk]
    exact ⟨hy, hm1, hm2, by omega, by omega⟩
  · split
    · rename_i hlt hm
      rw [validDate_mk]
      have hpos := daysInMonth_pos d.year (d.month + 1) (by omega) (by omega)
      exact ⟨hy, by omega, by omega, by omega, by omega⟩
    · rename_i hlt hm
      rw [validDate_mk]
      refine ⟨by omega, by omega, by omega, by omega, ?_⟩
      rw [show daysInMonth (d.year + 1) 1 = 31 from rfl]
      omega

theorem addDays_valid (d : Date) (h : ValidDate d) (n : Nat) :
    ValidDate (addDays d n) := by
  induction n with
  | zero => exact h
  | succ n ih => exact nextDay_valid _ ih

theorem toOrdinal_addDays (d : Date) (h : ValidDate d) (n : Nat) :
    toOrdinal (addDays d n) = toOrdinal d + n := by
  induction n with
  | zero => rfl
  | succ n ih =>
    have := toOrdinal_nextDay (addDays d n) (addDays_valid d h n)
    simp only [addDays]
    omega

theorem weekday_lt_seven (d : Date) : d.weekday < 7 :=
  Nat.mod_lt _ (by omega)

theorem find_next_weekday_monday (d : Date) (h5 : 5 ≤ d.weekday) :
    find_next_weekday d 0 = addDays d (7 - d.weekday) := by
  have h7 := weekday_lt_seven d
  have hle : ((0 : Nat) : Int) - (d.weekday : Int) ≤ 0 := by omega
  unfold find_next_weekday
  simp only []
  rw [if_pos hle]
  congr 1
  omega

/-- On a weekend date (weekday 5 or 6) the shifted date is the following
Monday: weekday 0, strictly later, and at most two days ahead. -/
theorem adjust_for_weekend_weekend (d : Date) (hv : ValidDate d)
    (h5 : 5 ≤ d.weekday) :
    (adjust_for_weekend d).weekday = 0 ∧
      toOrdinal d < toOrdinal (adjust_for_weekend d) ∧
      toOrdinal (adjust_for_weekend d) ≤ toOrdinal d + 2 := by
  have h7 := weekday_lt_seven d
  unfold adjust_for_weekend
  rw [if_pos h5, find_next_weekday_monday d h5]
  rw [show (addDays d (7 - d.weekday)).weekday
      = (toOrdinal (addDays d (7 - d.weekday)) + 6) % 7 from rfl]
  rw [toOrdinal_addDays d hv (7 - d.weekday)]
  have hwd : d.weekday = (toOrdinal d + 6) % 7 := rfl
  refine ⟨?_, by omega, by omega⟩
  omega

/-- On a weekday (Monday..Friday) the date is reported unshifted. -/
theorem adjust_for_weekend_weekday (d : Date) (h5 : d.weekday < 5) :
    adjust_for_weekend d = d := by
  unfold adjust_for_weekend
  rw [if_neg (by omega)]

theorem except_isOk_iff {ε α : Type} (e : Except ε α) :
    e.isOk = true ↔ ∃ v, e = .ok v := by
  cases e <;> simp [Except.isOk, Except.toBool]

theorem isOk_ok {ε α : Type} (v : α) : (Except.ok v : Except ε α).isOk = true := rfl

theorem isOk_error {ε α : Type} (e : ε) : (Except.error e : Except ε α).isOk = false := rfl

theorem Phone_mk'_ok (value : String)
    (h : value.length = 10 ∧ value.data.all Char.isDigit) :
    Phone.mk' value = .ok value := by
  unfold Phone.mk'
  rw [if_pos h]

theorem Phone_mk'_error (value : String)
    (h : ¬ (value.length = 10 ∧ value.data.all Char.isDigit)) :
    Phone.mk' value =
      .error (.wrongFormatOfField "The phone number should contain 10 numeric characters") := by
  unfold Phone.mk'
  rw [if_neg h]

theorem Phone_mk'_ok_inv (value q : String) (h : Phone.mk' value = .ok q) :
    q = value ∧ value.length = 10 ∧ value.data.all Char.isDigit := by
  unfold Phone.mk' at h
  split at h
  · rename_i hc
    exact ⟨(Except.ok.inj h).symm, hc⟩
  · cases h

theorem Phone_mk'_isOk (value : String) (h : (Phone.mk' value).isOk = true) :
    Phone.mk' value = .ok value := by
  obtain ⟨v, hv⟩ := (except_isOk_iff _).mp h
  rcases Phone_mk'_ok_inv value v hv with ⟨rfl, hlen, hall⟩
  exact hv

theorem validatePhones_ok (l : List String) (h : ∀ p ∈ l, (Phone.mk' p).isOk) :
    validatePhones l = .ok l := by
  induction l with
  | nil => rfl
  | cons p ps ih =>
    have hp := Phone_mk'_isOk p (h p (List.mem_cons_self p ps))
    have hps := ih (fun q hq => h q (List.mem_cons_of_mem _ hq))
    simp only [validatePhones, hp, hps]

theorem validatePhones_ok_inv (l v : List String) (h : validatePhones l = .ok v) :
    v = l ∧ ∀ p ∈ l, (Phone.mk' p).isOk := by
  induction l generalizing v with
  | nil =>
    refine ⟨(Except.ok.inj h).symm, by simp⟩
  | cons p ps ih =>
    simp only [validatePhones] at h
    cases hp : Phone.mk' p with
    | error e => rw [hp] at h; cases h
    | ok q =>
      rw [hp] at h
      cases hps : validatePhones ps with
      | error e => rw [hps] at h; cases h
      | ok vs =>
        rw [hps] at h
        obtain ⟨rfl, hall⟩ := ih vs hps
        obtain ⟨rfl, _, _⟩ := Phone_mk'_ok_inv p q hp
        refine ⟨(Except.ok.inj h).symm, ?_⟩
        intro r hr
        rcases List.mem_cons.mp hr with rfl | hr2
        · rw [hp]; rfl
        · exact hall r hr2

/-- C4: phone validation succeeds exactly on 10-character all-decimal-digit
strings, returning the input itself (so the validated phone renders back to the
input), and fails with the invalid-format error on every other string. -/
theorem C4_phone_validation (s : String) :
    ((s.length = 10 ∧ ∀ c ∈ s.data, c.isDigit) → Phone.mk' s = .ok s) ∧
    (¬ (s.length = 10 ∧ ∀ c ∈ s.data, c.isDigit) →
      Phone.mk' s =
        .error (.wrongFormatOfField "The phone number should contain 10 numeric characters")) := by
  constructor
  · intro ⟨h1, h2⟩
    exact Phone_mk'_ok s ⟨h1, List.all_eq_true.mpr h2⟩
  · intro h
    refine Phone_mk'_error s ?_
    intro ⟨h1, h2⟩
    exact h ⟨h1, List.all_eq_true.mp h2⟩

/-- C4 witness: a valid ten-digit phone round-trips, a shorter one is rejected. -/
theorem C4_phone_validation_witness :
    Phone.mk' "0501234567" = .ok "0501234567" ∧
    Phone.mk' "05012" =
      .error (.wrongFormatOfField "The phone number should contain 10 numeric characters") :=
  ⟨(C4_phone_validation "0501234567").1 (by decide),
   (C4_phone_validation "05012").2 (by decide)⟩

theorem Record_mk'_eq (name : String) (ps : List String) (bs : String) :
    Record.mk' name (some ps) (some bs) =
      match validatePhones ps with
      | .error e => .error e
      | .ok l =>
        if bs = "" then .ok ⟨name, l, none⟩
        else
          match Birthday.mk' bs with
          | .error e => .error e
          | .ok b => .ok ⟨name, l, some b⟩ := by
  unfold Record.mk'
  by_cases hps : ps = []
  · subst hps; rfl
  · simp only [if_neg hps]

/-- C5 (amended): record creation never validates the name; it succeeds iff
every listed phone passes the phone validator and the birthday string, when
truthy (non-empty), passes the birthday validator; on success the phones are
the listed ones, validated in order. -/
theorem C5_record_creation (name : String) (ps : List String) (bs : String) :
    ((Record.mk' name (some ps) (some bs)).isOk = true ↔
      ((∀ p ∈ ps, (Phone.mk' p).isOk = true) ∧
        (bs ≠ "" → (Birthday.mk' bs).isOk = true))) ∧
    (∀ r, Record.mk' name (some ps) (some bs) = .ok r →
      r.name = name ∧ r.phones = ps) := by
  rw [Record_mk'_eq]
  cases hv : validatePhones ps with
  | error e =>
    constructor
    · constructor
      · intro h
        exact Bool.noConfusion h
      · intro ⟨hall, _⟩
        rw [validatePhones_ok ps hall] at hv
        exact Except.noConfusion hv
    · intro r hr
      exact Except.noConfusion hr
  | ok l =>
    obtain ⟨rfl, hall⟩ := validatePhones_ok_inv ps l hv
    by_cases hbs : bs = ""
    · subst hbs
      simp only [if_pos rfl]
      constructor
      · constructor
        · intro _
          exact ⟨hall, fun hne => absurd rfl hne⟩
        · intro _
          rfl
      · intro r hr
        rw [← Except.ok.inj hr]
        exact ⟨rfl, rfl⟩
    · simp only [if_neg hbs]
      cases hb : Birthday.mk' bs with
      | error e =>
        constructor
        · constructor
          · intro h
            exact Bool.noConfusion h
          · intro ⟨_, hbok⟩
            exact Bool.noConfusion (hbok hbs)
        · intro r hr
          exact Except.noConfusion hr
      | ok b =>
        constructor
        · constructor
          · intro _
            exact ⟨hall, fun _ => rfl⟩
          · intro _
            rfl
        · intro r hr
          rw [← Except.ok.inj hr]
          exact ⟨rfl, rfl⟩

/-- C5 counterexample: a record with an empty name (and no phones or birthday)
is created successfully, whereas the claim requires failure on an empty name. -/
theorem C5_counterexample :
    Record.mk' "" none none = .ok ⟨"", [], none⟩ := rfl

/-- C5 witness: a record with one valid phone and a valid birthday is created,
and any record so created keeps the listed name and phones. -/
theorem C5_record_creation_witness :
    ( Record.mk' "Kate" (some ["0123456789"]) (some "15.03.2024")).isOk = true ∧
    (∀ r, Record.mk' "Kate" (some ["0123456789"]) (some "15.03.2024") = .ok r →
      r.name = "Kate" ∧ r.phones = ["0123456789"]) :=
  ⟨(C5_record_creation "Kate" ["0123456789"] "15.03.2024").1.mpr
      ⟨by decide, fun _ => by decide⟩,
   (C5_record_creation "Kate" ["0123456789"] "15.03.2024").2⟩

theorem find_first_self (l : List String) (a : String) (h : a ∈ l) :
    l.find? (fun q => q == a) = some a := by
  induction l with
  | nil => cases h
  | cons x xs ih =>
    rcases List.mem_cons.mp h with h1 | h2
    · subst h1
      simp [List.find?_cons]
    · by_cases hx : x = a
      · subst hx
        simp [List.find?_cons]
      · rw [List.find?_cons_of_neg _ (by simpa using hx)]
        exact ih h2

theorem find_phone_of_mem (phones : List String) (a : String)
    (hval : Phone.mk' a = .ok a) (h : a ∈ phones) :
    find_phone phones a = .ok (some a) := by
  cases phones with
  | nil => cases h
  | cons x xs =>
    simp only [find_phone, hval]
    rw [find_first_self _ a h]

theorem find_phone_of_not_mem (phones : List String) (a : String)
    (hval : Phone.mk' a = .ok a) (h : a ∉ phones) :
    find_phone phones a = .ok none := by
  cases phones with
  | nil => rfl
  | cons x xs =>
    simp only [find_phone, hval]
    rw [List.find?_eq_none.mpr]
    intro q hq hbeq
    exact h (by rwa [show q = a from by simpa using hbeq] at hq)

theorem find_phone_ok_some_mem (phones : List String) (n q : String)
    (h : find_phone phones n = .ok (some q)) : q ∈ phones := by
  cases phones with
  | nil => exact Option.noConfusion (Except.ok.inj h)
  | cons x xs =>
    simp only [find_phone] at h
    cases hp : Phone.mk' n with
    | error e => rw [hp] at h; exact Except.noConfusion h
    | ok p =>
      rw [hp] at h
      exact List.mem_of_find?_eq_some (Except.ok.inj h)

theorem add_phone_ok (phones : List String) (p : String)
    (hval : Phone.mk' p = .ok p) : add_phone phones p = .ok (phones ++ [p]) := by
  simp only [add_phone, hval]

theorem add_phone_error_state (phones : List String) (p : String) (e : PyErr)
    (ps : List String) (h : add_phone phones p = .error (e, ps)) : ps = phones := by
  unfold add_phone at h
  cases hp : Phone.mk' p with
  | error e2 =>
    rw [hp] at h
    exact (congrArg Prod.snd (Except.error.inj h)).symm
  | ok v => rw [hp] at h; exact Except.noConfusion h

theorem remove_phone_ok (ps : List String) (a : String) (h : a ∈ ps) :
    remove_phone ps a = .ok (ps.erase a) := by
  unfold remove_phone
  rw [if_pos (List.elem_eq_true_of_mem h)]

theorem edit_phone_ok (phones : List String) (old_number new_number : String)
    (hold : Phone.mk' old_number = .ok old_number)
    (hnew : Phone.mk' new_number = .ok new_number)
    (hmem : old_number ∈ phones) :
    edit_phone phones old_number new_number =
      .ok ((phones ++ [new_number]).erase old_number) := by
  simp only [edit_phone, find_phone_of_mem phones old_number hold hmem,
    add_phone_ok phones new_number hnew]
  exact remove_phone_ok _ _ (List.mem_append_left _ hmem)

/-- C6 (amended): when the old number occurs exactly once and the new number is
a different valid ten-digit number, `edit_phone` succeeds, after which
`find_phone` of the new number returns it and `find_phone` of the old number
returns the not-found sentinel. -/
theorem C6_edit_then_find (phones : List String) (old_number new_number : String)
    (hold : Phone.mk' old_number = .ok old_number)
    (hnew : Phone.mk' new_number = .ok new_number)
    (hmem : old_number ∈ phones)
    (hcount : phones.count old_number = 1)
    (hne : new_number ≠ old_number) :
    ∃ ps, edit_phone phones old_number new_number = .ok ps ∧
      find_phone ps new_number = .ok (some new_number) ∧
      find_phone ps old_number = .ok none := by
  refine ⟨(phones ++ [new_number]).erase old_number,
    edit_phone_ok phones old_number new_number hold hnew hmem, ?_, ?_⟩
  · refine find_phone_of_mem _ new_number hnew ?_
    exact (List.mem_erase_of_ne hne).mpr (List.mem_append_right _ (List.mem_singleton.mpr rfl))
  · refine find_phone_of_not_mem _ old_number hold ?_
    rw [← List.count_eq_zero (a := old_number)]
    rw [List.count_erase_self, List.count_append, hcount]
    have : List.count old_number [new_number] = 0 := by
      simp [List.count_cons, List.count_nil]
      exact fun hc => absurd hc hne
    omega

/-- C6 counterexample: editing a phone to the same number leaves the old number
findable, contradicting the claim that `find_phone(old)` fails after any
`edit_phone(old, new)` on a record containing `old` with `new` valid. -/
theorem C6_counterexample :
    edit_phone ["1234567890"] "1234567890" "1234567890" = .ok ["1234567890"] ∧
    find_phone ["1234567890"] "1234567890" ≠ .ok none := by
  constructor
  · rfl
  · intro h
    exact Option.noConfusion (Except.ok.inj h)

/-- C6 witness: a concrete distinct-number edit, with the old number occurring
once, after which the new number is found and the old is not. -/
theorem C6_edit_then_find_witness :
    ∃ ps, edit_phone ["0123456789"] "0123456789" "9876543210" = .ok ps ∧
      find_phone ps "9876543210" = .ok (some "9876543210") ∧
      find_phone ps "0123456789" = .ok none :=
  C6_edit_then_find ["0123456789"] "0123456789" "9876543210"
    (by decide) (by decide) (by decide) (by decide) (by decide)

/-- C10: every failing `edit_phone` call (unknown old number, malformed old
number, or malformed new number) leaves the phone list exactly as it was. -/
theorem C10_edit_phone_atomic (phones : List String) (old_number new_number : String)
    (e : PyErr) (ps : List String)
    (h : edit_phone phones old_number new_number = .error (e, ps)) :
    ps = phones := by
  cases hf : find_phone phones old_number with
  | error e2 =>
    simp only [edit_phone, hf] at h
    exact (congrArg Prod.snd (Except.error.inj h)).symm
  | ok o =>
    cases o with
    | none =>
      simp only [edit_phone, hf] at h
      exact (congrArg Prod.snd (Except.error.inj h)).symm
    | some phone =>
      simp only [edit_phone, hf] at h
      cases ha : add_phone phones new_number with
      | error ep =>
        obtain ⟨e2, ps2⟩ := ep
        simp only [ha] at h
        have hinj := Except.error.inj h
        have hps : ps2 = ps := congrArg Prod.snd hinj
        rw [← hps]
        exact add_phone_error_state phones new_number e2 ps2 ha
      | ok ps2 =>
        simp only [ha] at h
        have hmem : phone ∈ phones := find_phone_ok_some_mem phones old_number phone hf
        have hmem2 : phone ∈ ps2 := by
          unfold add_phone at ha
          cases hp : Phone.mk' new_number with
          | error e3 => rw [hp] at ha; exact Except.noConfusion ha
          | ok v =>
            rw [hp] at ha
            rw [← Except.ok.inj ha]
            exact List.mem_append_left _ hmem
        rw [remove_phone_ok ps2 phone hmem2] at h
        exact Except.noConfusion h

/-- C10 witness: an edit whose old number is absent fails and reports the
untouched phone list. -/
theorem C10_edit_phone_atomic_witness :
    edit_phone ["0123456789"] "9999999999" "0000000000"
      = .error (.valueError "Phone number None not found", ["0123456789"]) ∧
    (["0123456789"] : List String) = ["0123456789"] :=
  ⟨by decide,
   C10_edit_phone_atomic ["0123456789"] "9999999999" "0000000000"
     (.valueError "Phone number None not found") ["0123456789"] (by decide)⟩

theorem keys_append (b1 b2 : AddressBook) : keys (b1 ++ b2) = keys b1 ++ keys b2 := by
  simp [keys]

theorem not_mem_of_contains_eq_false (l : List String) (a : String)
    (h : l.contains a = false) : a ∉ l := by
  intro hmem
  exact Bool.noConfusion (h.symm.trans (List.elem_eq_true_of_mem hmem))

/-- C8: after a successful add, looking the record's name up returns exactly the
added record; and adding a record whose name is already a key of a directory
fails with the duplicate-name error. -/
theorem C8_add_then_find (b b' : AddressBook) (r : Record)
    (hadd : add_record b r = .ok b') :
    find b' r.name = .ok r ∧
    (∀ (b2 : AddressBook) (r2 : Record), r2.name ∈ keys b2 →
      add_record b2 r2 = .error (.valueError "Record with this name already exists")) := by
  constructor
  · unfold add_record at hadd
    split at hadd
    · exact Except.noConfusion hadd
    · rename_i hcon
      rw [← Except.ok.inj hadd]
      unfold find
      rw [List.find?_append]
      have h1 : b.find? (fun kv => kv.1 == r.name) = none := by
        rw [List.find?_eq_none]
        intro kv hkv hbeq
        exact (not_mem_of_contains_eq_false _ _ (Bool.of_not_eq_true hcon))
          (by rw [← show kv.1 = r.name from by simpa using hbeq]; exact List.mem_map_of_mem _ hkv)
      rw [h1]
      rw [List.find?_cons_of_pos _ (by simp)]
      rfl
  · intro b2 r2 hmem
    unfold add_record
    rw [if_pos (List.elem_eq_true_of_mem hmem)]

/-- C8 witness: adding a record to the empty directory, finding it again, and
the duplicate-add failure on every directory containing the name. -/
theorem C8_add_then_find_witness :
    find [("Ann", (⟨"Ann", [], none⟩ : Record))] "Ann" = .ok ⟨"Ann", [], none⟩ ∧
    (∀ (b2 : AddressBook) (r2 : Record), r2.name ∈ keys b2 →
      add_record b2 r2 = .error (.valueError "Record with this name already exists")) :=
  C8_add_then_find [] [("Ann", ⟨"Ann", [], none⟩)] ⟨"Ann", [], none⟩ rfl

/-- C9: in every directory reachable from the empty one by add, update and
delete, every key equals the stored record's textual name, and the keys are
pairwise distinct. -/
theorem C9_directory_invariant (b : AddressBook) (h : Reachable b) :
    (∀ kv ∈ b, kv.1 = kv.2.name) ∧ (keys b).Nodup := by
  induction h with
  | empty => exact ⟨by simp, List.nodup_nil⟩
  | add hreach hop ih =>
    obtain ⟨ih1, ih2⟩ := ih
    rename_i b0 b0' r
    unfold add_record at hop
    split at hop
    · exact Except.noConfusion hop
    · rename_i hcon
      rw [← Except.ok.inj hop]
      constructor
      · intro kv hkv
        rcases List.mem_append.mp hkv with h1 | h2
        · exact ih1 kv h1
        · rw [List.mem_singleton.mp h2]
      · rw [keys_append]
        rw [List.nodup_append]
        refine ⟨ih2, List.nodup_singleton _, ?_⟩
        intro a ha hb2
        rw [show a = r.name from by simpa [keys] using hb2] at ha
        exact (not_mem_of_contains_eq_false _ _ (Bool.of_not_eq_true hcon)) ha
  | update hreach hop ih =>
    obtain ⟨ih1, ih2⟩ := ih
    rename_i b0 b0' r
    unfold update_record at hop
    split at hop
    · rename_i hcon
      rw [← Except.ok.inj hop]
      constructor
      · intro kv hkv
        obtain ⟨kv0, hkv0, hf⟩ := List.mem_map.mp hkv
        by_cases he : kv0.1 = r.name
        · rw [← hf, if_pos he]
          exact he
        · rw [← hf, if_neg he]
          exact ih1 kv0 hkv0
      · have hkeys : keys (b0.map (fun kv => if kv.1 = r.name then (kv.1, r) else kv)) = keys b0 := by
          unfold keys
          rw [List.map_map]
          refine List.map_congr_left ?_
          intro kv hkv
          by_cases he : kv.1 = r.name
          · simp [he]
          · simp [he]
        rw [hkeys]
        exact ih2
    · exact Except.noConfusion hop
  | del hreach hop ih =>
    obtain ⟨ih1, ih2⟩ := ih
    rename_i b0 b0' n
    unfold delete at hop
    split at hop
    · rw [← Except.ok.inj hop]
      have hsub := List.eraseP_sublist (p := fun kv => kv.1 == n) b0
      constructor
      · intro kv hkv
        exact ih1 kv (hsub.mem hkv)
      · exact ih2.sublist (hsub.map Prod.fst)
    · exact Except.noConfusion hop

/-- C9 witness: the invariant holds of a concrete reachable directory. -/
theorem C9_directory_invariant_witness :
    (∀ kv ∈ [("Ann", (⟨"Ann", [], none⟩ : Record))], kv.1 = kv.2.name) ∧
    (keys [("Ann", (⟨"Ann", [], none⟩ : Record))]).Nodup :=
  C9_directory_invariant _
    (@Reachable.add [] [("Ann", ⟨"Ann", [], none⟩)] ⟨"Ann", [], none⟩ Reachable.empty rfl)

theorem processRecord_eq (today : Date) (days : Int) (key : String) (r : Record)
    (bd occ : Date) (hb : r.birthday = some (some bd))
    (hocc : occurrenceDate bd today = .ok occ) :
    processRecord today days key r =
      if 0 ≤ dateSub occ today ∧ dateSub occ today ≤ days then
        .ok (some ⟨key, date_to_string (adjust_for_weekend occ)⟩)
      else .ok none := by
  simp only [processRecord, hb, hocc]

theorem processRecord_name (today : Date) (days : Int) (key : String) (r : Record)
    (e : Entry) (h : processRecord today days key r = .ok (some e)) :
    e.name = key := by
  cases hbd : r.birthday with
  | none =>
    simp only [processRecord, hbd] at h
    exact Except.noConfusion h
  | some o =>
    cases o with
    | none =>
      simp only [processRecord, hbd] at h
      exact Option.noConfusion (Except.ok.inj h)
    | some bd =>
      simp only [processRecord, hbd] at h
      cases ho : occurrenceDate bd today with
      | error e2 =>
        simp only [ho] at h
        exact Except.noConfusion h
      | ok occ =>
        simp only [ho] at h
        split at h
        · rw [← Option.some.inj (Except.ok.inj h)]
        · exact Option.noConfusion (Except.ok.inj h)

theorem upcoming_names (b : AddressBook) (days : Int) (today : Date)
    (l : List Entry) (hok : get_upcoming_birthdays b days today = .ok l) :
    ∀ e ∈ l, e.name ∈ keys b := by
  induction b generalizing l with
  | nil =>
    rw [← Except.ok.inj hok]
    intro e he
    cases he
  | cons kv rest ih =>
    obtain ⟨k, r⟩ := kv
    simp only [get_upcoming_birthdays] at hok
    cases hp : processRecord today days k r with
    | error e2 => rw [hp] at hok; exact Except.noConfusion hok
    | ok o =>
      rw [hp] at hok
      cases o with
      | none =>
        intro e he
        exact List.mem_cons_of_mem _ (ih l hok e he)
      | some entry =>
        cases hrest : get_upcoming_birthdays rest days today with
        | error e2 => rw [hrest] at hok; exact Except.noConfusion hok
        | ok others =>
          rw [hrest] at hok
          rw [← Except.ok.inj hok]
          intro e he
          rcases List.mem_cons.mp he with rfl | he2
          · rw [processRecord_name today days k r e hp]
            exact List.mem_cons_self _ _
          · exact List.mem_cons_of_mem _ (ih others hrest e he2)

theorem upcoming_mem_of_cond (b : AddressBook) (days : Int) (today : Date)
    (key : String) (r : Record) (bd occ : Date) (l : List Entry)
    (hmem : (key, r) ∈ b) (hb : r.birthday = some (some bd))
    (hocc : occurrenceDate bd today = .ok occ)
    (hcond : 0 ≤ dateSub occ today ∧ dateSub occ today ≤ days)
    (hok : get_upcoming_birthdays b days today = .ok l) :
    Entry.mk key (date_to_string (adjust_for_weekend occ)) ∈ l := by
  induction b generalizing l with
  | nil => cases hmem
  | cons kv rest ih =>
    obtain ⟨k, r0⟩ := kv
    simp only [get_upcoming_birthdays] at hok
    rcases List.mem_cons.mp hmem with heq | hmem2
    · have h1 : key = k := congrArg Prod.fst heq
      have h2 : r = r0 := congrArg Prod.snd heq
      subst h1
      subst h2
      rw [processRecord_eq today days key r bd occ hb hocc, if_pos hcond] at hok
      cases hrest : get_upcoming_birthdays rest days today with
      | error e2 => rw [hrest] at hok; exact Except.noConfusion hok
      | ok others =>
        rw [hrest] at hok
        rw [← Except.ok.inj hok]
        exact List.mem_cons_self _ _
    · cases hp : processRecord today days k r0 with
      | error e2 => rw [hp] at hok; exact Except.noConfusion hok
      | ok o =>
        rw [hp] at hok
        cases o with
        | none => exact ih l hmem2 hok
        | some entry =>
          cases hrest : get_upcoming_birthdays rest days today with
          | error e2 => rw [hrest] at hok; exact Except.noConfusion hok
          | ok others =>
            rw [hrest] at hok
            rw [← Except.ok.inj hok]
            exact List.mem_cons_of_mem _ (ih others hmem2 hrest)

theorem upcoming_not_mem_of_not_cond (b : AddressBook) (days : Int) (today : Date)
    (key : String) (r : Record) (bd occ : Date) (l : List Entry)
    (hnd : (keys b).Nodup)
    (hmem : (key, r) ∈ b) (hb : r.birthday = some (some bd))
    (hocc : occurrenceDate bd today = .ok occ)
    (hncond : ¬ (0 ≤ dateSub occ today ∧ dateSub occ today ≤ days))
    (hok : get_upcoming_birthdays b days today = .ok l) :
    ∀ s, Entry.mk key s ∉ l := by
  induction b generalizing l with
  | nil => cases hmem
  | cons kv rest ih =>
    obtain ⟨k, r0⟩ := kv
    have hnd2 : (keys rest).Nodup := (List.nodup_cons.mp hnd).2
    have hknotin : k ∉ keys rest := (List.nodup_cons.mp hnd).1
    simp only [get_upcoming_birthdays] at hok
    rcases List.mem_cons.mp hmem with heq | hmem2
    · have h1 : key = k := congrArg Prod.fst heq
      have h2 : r = r0 := congrArg Prod.snd heq
      subst h1
      subst h2
      rw [processRecord_eq today days key r bd occ hb hocc, if_neg hncond] at hok
      intro s hs
      have := upcoming_names rest days today l hok _ hs
      exact hknotin this
    · have hkeymem : key ∈ keys rest := List.mem_map_of_mem Prod.fst hmem2
      cases hp : processRecord today days k r0 with
      | error e2 => rw [hp] at hok; exact Except.noConfusion hok
      | ok o =>
        rw [hp] at hok
        cases o with
        | none => exact ih l hnd2 hmem2 hok
        | some entry =>
          cases hrest : get_upcoming_birthdays rest days today with
          | error e2 => rw [hrest] at hok; exact Except.noConfusion hok
          | ok others =>
            rw [hrest] at hok
            rw [← Except.ok.inj hok]
            intro s hs
            rcases List.mem_cons.mp hs with hhead | htail
            · have h1 : entry.name = k := processRecord_name today days k r0 entry hp
              rw [← hhead] at h1
              rw [show (Entry.mk key s).name = key from rfl] at h1
              rw [h1] at hkeymem
              exact hknotin hkeymem
            · exact ih others hnd2 hmem2 hrest s htail

/-- C1: the claim says records with an absent birthday are silently skipped and
never make the query fail; in the code only a `Birthday` built from the `"None"`
marker is skipped, while a record created without any birthday (attribute
`None`) makes the whole query raise `AttributeError`. -/
theorem C1_absent_birthday_crash :
    get_upcoming_birthdays [("Ann", ⟨"Ann", [], none⟩)] 7 ⟨2024, 3, 10⟩
      = .error (.attributeError "'NoneType' object has no attribute 'value'") ∧
    get_upcoming_birthdays [("Bob", ⟨"Bob", [], some none⟩)] 7 ⟨2024, 3, 10⟩ = .ok [] :=
  ⟨rfl, rfl⟩

/-- C2 counterexample: a 29 February birthday with a non-leap current year makes
`date.replace(year=today.year)` raise, so the query yields no result list at
all, while the claim asserts the record is simply filtered by its delta. -/
theorem C2_counterexample :
    ¬ ∃ l, get_upcoming_birthdays [("Leap", ⟨"Leap", [], some (some ⟨2000, 2, 29⟩)⟩)]
        7 ⟨2023, 1, 1⟩ = .ok l := by
  rintro ⟨l, h⟩
  rw [show get_upcoming_birthdays
        [("Leap", (⟨"Leap", [], some (some ⟨2000, 2, 29⟩)⟩ : Record))] 7 ⟨2023, 1, 1⟩
      = .error (.valueError "day is out of range for month") from by decide] at h
  exact Except.noConfusion h

/-- C2 (amended): provided the query returns a result and the record's birthday
month/day exists in the years used (not 29 February mapped to a non-leap year),
the occurrence is this year's month/day, replaced by next year's when strictly
before today, and the record is reported iff `0 ≤ occurrence - today ≤ window`,
inclusive on both ends. -/
theorem C2_window_filter (b : AddressBook) (today : Date) (days : Int)
    (key : String) (r : Record) (bd occ : Date) (l : List Entry)
    (hnd : (keys b).Nodup)
    (hmem : (key, r) ∈ b) (hb : r.birthday = some (some bd))
    (hocc : occurrenceDate bd today = .ok occ)
    (hok : get_upcoming_birthdays b days today = .ok l) :
    ((∃ s, Entry.mk key s ∈ l) ↔ (0 ≤ dateSub occ today ∧ dateSub occ today ≤ days)) ∧
    (∀ t, replaceYear bd today.year = .ok t →
      (dateLt t today = false → occ = t) ∧
      (dateLt t today = true → replaceYear bd (today.year + 1) = .ok occ)) := by
  constructor
  · constructor
    · intro ⟨s, hs⟩
      by_contra hncond
      exact upcoming_not_mem_of_not_cond b days today key r bd occ l
        hnd hmem hb hocc hncond hok s hs
    · intro hcond
      exact ⟨date_to_string (adjust_for_weekend occ),
        upcoming_mem_of_cond b days today key r bd occ l hmem hb hocc hcond hok⟩
  · intro t ht
    simp only [occurrenceDate, ht] at hocc
    constructor
    · intro hlt
      simp only [hlt, Bool.false_eq_true, if_false] at hocc
      exact (Except.ok.inj hocc).symm
    · intro hlt
      simp only [hlt, if_true] at hocc
      exact hocc

/-- C2 witness: the spec's own scenario; Alice's birthday 15.03 with today
10.03.2024 and window 7 is reported, with delta 5 inside the window. -/
theorem C2_window_filter_witness :
    ((∃ s, Entry.mk "Alice" s ∈ [Entry.mk "Alice" "15.03.2024"]) ↔
      (0 ≤ dateSub ⟨2024, 3, 15⟩ ⟨2024, 3, 10⟩ ∧ dateSub ⟨2024, 3, 15⟩ ⟨2024, 3, 10⟩ ≤ 7)) ∧
    (∀ t, replaceYear ⟨1999, 3, 15⟩ (Date.year ⟨2024, 3, 10⟩) = .ok t →
      (dateLt t ⟨2024, 3, 10⟩ = false → (⟨2024, 3, 15⟩ : Date) = t) ∧
      (dateLt t ⟨2024, 3, 10⟩ = true →
        replaceYear ⟨1999, 3, 15⟩ (Date.year ⟨2024, 3, 10⟩ + 1) = .ok ⟨2024, 3, 15⟩)) :=
  C2_window_filter [("Alice", ⟨"Alice", [], some (some ⟨1999, 3, 15⟩)⟩)]
    ⟨2024, 3, 10⟩ 7 "Alice" ⟨"Alice", [], some (some ⟨1999, 3, 15⟩)⟩
    ⟨1999, 3, 15⟩ ⟨2024, 3, 15⟩ [Entry.mk "Alice" "15.03.2024"]
    (by decide) (by decide) rfl (by decide) (by decide)

/-- C3: a record whose unshifted occurrence passes the window filter is reported
under the weekend-shifted, `DD.MM.YYYY`-formatted date: the following Monday
(weekday 0, one or two days later) when the occurrence is Saturday or Sunday,
the occurrence itself otherwise; inclusion is decided on the unshifted
occurrence even when the shifted date leaves the window. -/
theorem C3_weekend_shift (b : AddressBook) (today : Date) (days : Int)
    (key : String) (r : Record) (bd occ : Date) (l : List Entry)
    (hmem : (key, r) ∈ b) (hb : r.birthday = some (some bd))
    (hocc : occurrenceDate bd today = .ok occ)
    (hv : ValidDate occ)
    (hcond : 0 ≤ dateSub occ today ∧ dateSub occ today ≤ days)
    (hok : get_upcoming_birthdays b days today = .ok l) :
    Entry.mk key (date_to_string (adjust_for_weekend occ)) ∈ l ∧
    (5 ≤ occ.weekday →
      (adjust_for_weekend occ).weekday = 0 ∧
      toOrdinal occ < toOrdinal (adjust_for_weekend occ) ∧
      toOrdinal (adjust_for_weekend occ) ≤ toOrdinal occ + 2) ∧
    (occ.weekday < 5 → adjust_for_weekend occ = occ) :=
  ⟨upcoming_mem_of_cond b days today key r bd occ l hmem hb hocc hcond hok,
   fun h5 => adjust_for_weekend_weekend occ hv h5,
   fun h5 => adjust_for_weekend_weekday occ h5⟩

/-- C3 witness: the spec's Saturday scenario; Bob's occurrence 16.03.2024 is a
Saturday with delta 6, reported as Monday 18.03.2024. -/
theorem C3_weekend_shift_witness :
    Entry.mk "Bob" (date_to_string (adjust_for_weekend ⟨2024, 3, 16⟩))
        ∈ [Entry.mk "Bob" "18.03.2024"] ∧
    (5 ≤ Date.weekday ⟨2024, 3, 16⟩ →
      (adjust_for_weekend ⟨2024, 3, 16⟩).weekday = 0 ∧
      toOrdinal ⟨2024, 3, 16⟩ < toOrdinal (adjust_for_weekend ⟨2024, 3, 16⟩) ∧
      toOrdinal (adjust_for_weekend ⟨2024, 3, 16⟩) ≤ toOrdinal ⟨2024, 3, 16⟩ + 2) ∧
    (Date.weekday ⟨2024, 3, 16⟩ < 5 → adjust_for_weekend ⟨2024, 3, 16⟩ = ⟨2024, 3, 16⟩) :=
  C3_weekend_shift [("Bob", ⟨"Bob", [], some (some ⟨1990, 3, 16⟩)⟩)]
    ⟨2024, 3, 10⟩ 7 "Bob" ⟨"Bob", [], some (some ⟨1990, 3, 16⟩)⟩
    ⟨1990, 3, 16⟩ ⟨2024, 3, 16⟩ [Entry.mk "Bob" "18.03.2024"]
    (by decide) rfl (by decide) (by decide) (by decide) (by decide)

theorem isDigit_toNat (c : Char) (h : c.isDigit = true) :
    48 ≤ c.toNat ∧ c.toNat ≤ 57 := by
  simp [Char.isDigit] at h
  exact h

theorem digitVal_le (c : Char) (h : c.isDigit = true) : digitVal c ≤ 9 := by
  have := isDigit_toNat c h
  unfold digitVal
  omega

theorem digitChar_eq_ofNat (k : Nat) (h : k ≤ 9) : digitChar k = Char.ofNat (48 + k) := by
  interval_cases k <;> decide

theorem digitChar_digitVal (c : Char) (h : c.isDigit = true) :
    digitChar (digitVal c) = c := by
  have h2 := isDigit_toNat c h
  rw [digitChar_eq_ofNat _ (digitVal_le c h)]
  rw [show 48 + digitVal c = c.toNat from by unfold digitVal; omega]
  exact Char.ofNat_toNat c

/-- C7: every ten-character text of the exact shape `DD.MM.YYYY` that parses to
a calendar date passes birthday validation yielding that date, and formatting
the parsed date reproduces the original text, so the parse-then-format round
trip is idempotent. -/
theorem C7_birthday_roundtrip (a1 a2 b1 b2 y1 y2 y3 y4 : Char) (d : Date)
    (hparse : string_to_date (String.mk [a1, a2, '.', b1, b2, '.', y1, y2, y3, y4])
      = .ok d) :
    Birthday.mk' (String.mk [a1, a2, '.', b1, b2, '.', y1, y2, y3, y4]) = .ok (some d) ∧
    date_to_string d = String.mk [a1, a2, '.', b1, b2, '.', y1, y2, y3, y4] ∧
    Birthday.mk' (date_to_string d) = .ok (some d) := by
  have hparse' := hparse
  simp only [string_to_date] at hparse'
  split at hparse'
  case isFalse => exact Except.noConfusion hparse'
  case isTrue hguard =>
    obtain ⟨-, hdig⟩ := hguard
    simp only [Bool.and_eq_true] at hdig
    obtain ⟨⟨⟨⟨⟨⟨⟨hd1, hd2⟩, hm1⟩, hm2⟩, hy1⟩, hy2⟩, hy3⟩, hy4⟩ := hdig
    split at hparse'
    case isFalse => exact Except.noConfusion hparse'
    case isTrue hvalid =>
      have hd := Except.ok.inj hparse'
      subst hd
      have hne : String.mk [a1, a2, '.', b1, b2, '.', y1, y2, y3, y4] ≠ "None" := by
        intro h
        have h2 := congrArg String.length h
        rw [show (String.mk [a1, a2, '.', b1, b2, '.', y1, y2, y3, y4]).length = 10
          from rfl] at h2
        exact absurd h2 (by decide)
      have hfmt : date_to_string
          (⟨1000 * digitVal y1 + 100 * digitVal y2 + 10 * digitVal y3 + digitVal y4,
            10 * digitVal b1 + digitVal b2, 10 * digitVal a1 + digitVal a2⟩ : Date)
          = String.mk [a1, a2, '.', b1, b2, '.', y1, y2, y3, y4] := by
        have la1 := digitVal_le a1 hd1
        have la2 := digitVal_le a2 hd2
        have lb1 := digitVal_le b1 hm1
        have lb2 := digitVal_le b2 hm2
        have ly1 := digitVal_le y1 hy1
        have ly2 := digitVal_le y2 hy2
        have ly3 := digitVal_le y3 hy3
        have ly4 := digitVal_le y4 hy4
        simp only [date_to_string, pad2, pad4]
        rw [show (10 * digitVal a1 + digitVal a2) / 10 % 10 = digitVal a1 from by omega]
        rw [show (10 * digitVal a1 + digitVal a2) % 10 = digitVal a2 from by omega]
        rw [show (10 * digitVal b1 + digitVal b2) / 10 % 10 = digitVal b1 from by omega]
        rw [show (10 * digitVal b1 + digitVal b2) % 10 = digitVal b2 from by omega]
        rw [show (1000 * digitVal y1 + 100 * digitVal y2 + 10 * digitVal y3 + digitVal y4)
            / 1000 % 10 = digitVal y1 from by omega]
        rw [show (1000 * digitVal y1 + 100 * digitVal y2 + 10 * digitVal y3 + digitVal y4)
            / 100 % 10 = digitVal y2 from by omega]
        rw [show (1000 * digitVal y1 + 100 * digitVal y2 + 10 * digitVal y3 + digitVal y4)
            / 10 % 10 = digitVal y3 from by omega]
        rw [show (1000 * digitVal y1 + 100 * digitVal y2 + 10 * digitVal y3 + digitVal y4)
            % 10 = digitVal y4 from by omega]
        rw [digitChar_digitVal a1 hd1, digitChar_digitVal a2 hd2,
          digitChar_digitVal b1 hm1, digitChar_digitVal b2 hm2,
          digitChar_digitVal y1 hy1, digitChar_digitVal y2 hy2,
          digitChar_digitVal y3 hy3, digitChar_digitVal y4 hy4]
        rfl
      have hbirth : Birthday.mk' (String.mk [a1, a2, '.', b1, b2, '.', y1, y2, y3, y4])
          = .ok (some (⟨1000 * digitVal y1 + 100 * digitVal y2 + 10 * digitVal y3 + digitVal y4,
              10 * digitVal b1 + digitVal b2, 10 * digitVal a1 + digitVal a2⟩ : Date)) := by
        unfold Birthday.mk'
        rw [if_pos hne]
        have hsearch : searchDate (String.mk [a1, a2, '.', b1, b2, '.', y1, y2, y3, y4]).data
            = some [a1, a2, '.', b1, b2, '.', y1, y2, y3, y4] := by
          simp [searchDate, matchDateAt, hd1, hd2, hm1, hm2, hy1, hy2, hy3, hy4]
        rw [hsearch]
        simp only [hparse]
      exact ⟨hbirth, hfmt, by rw [hfmt]; exact hbirth⟩

/-- C7 witness: the text 15.03.2024 validates to the date 2024-03-15 and
formats back to itself. -/
theorem C7_birthday_roundtrip_witness :
    Birthday.mk' (String.mk ['1', '5', '.', '0', '3', '.', '2', '0', '2', '4'])
      = .ok (some ⟨2024, 3, 15⟩) ∧
    date_to_string ⟨2024, 3, 15⟩ = String.mk ['1', '5', '.', '0', '3', '.', '2', '0', '2', '4'] ∧
    Birthday.mk' (date_to_string ⟨2024, 3, 15⟩) = .ok (some ⟨2024, 3, 15⟩) :=
  C7_birthday_roundtrip '1' '5' '0' '3' '2' '0' '2' '4' ⟨2024, 3, 15⟩ (by decide)

end BotHelper
